import Mathlib

/-!
# Verification of the speed-test measurement engine

Shallow embedding of the measurement engine (`lib/speedtest` module of the
repository): the retry wrapper `withRetry`, the metadata lookup
`getIspInformation`, the latency prober `measureLatency`, the throughput
probers `measureDownloadForSize` / `measureUploadForSize`, the aggregator
`averageThroughput`, and the orchestrator `runSpeedTest`.

JavaScript numbers are modelled as rationals (`ℚ`); asynchronous fallible
operations are modelled as pure functions returning `Except`, indexed by an
invocation counter so that the behaviour of a stateful stub (fail `k` times,
then succeed) can be expressed.  The network environment is passed in as
functions giving, for each probe invocation, either a failure or the measured
duration.  Progress callbacks are modelled by returning the ordered list of
`(value, phase)` events the engine would emit.
-/

namespace SpeedTest

/-- Type `SpeedTestPhase` of the source: `'idle' | 'latency' | 'download' | 'upload'
| 'completed' | 'error'`. -/
inductive SpeedTestPhase where
  | idle
  | latency
  | download
  | upload
  | completed
  | error
deriving DecidableEq, Repr

/-- Record `LatencyMetrics` of the source, with JS numbers as rationals. -/
structure LatencyMetrics where
  average : ℚ
  min : ℚ
  max : ℚ
  jitter : ℚ
  samples : List ℚ
deriving DecidableEq, Repr

/-- Record `ThroughputSample` of the source. -/
structure ThroughputSample where
  sizeBytes : ℚ
  durationSeconds : ℚ
  mbps : ℚ
deriving DecidableEq, Repr

/-- Record `SpeedTestResult` of the source; `number | null` becomes `Option ℚ`. -/
structure SpeedTestResult where
  downloadMbps : Option ℚ
  uploadMbps : Option ℚ
  latency : Option LatencyMetrics
  timestamp : ℚ
deriving DecidableEq, Repr

/-- Constant `DOWNLOAD_SIZES = [1_048_576, 5_242_880, 10_485_760]`. -/
def DOWNLOAD_SIZES : List ℚ := [1048576, 5242880, 10485760]

/-- Constant `UPLOAD_SIZES = [1_048_576, 2_097_152]`. -/
def UPLOAD_SIZES : List ℚ := [1048576, 2097152]

/-- Constant `LATENCY_ATTEMPTS = 8`. -/
def LATENCY_ATTEMPTS : Nat := 8

/-! ## The retry wrapper `withRetry`

```
const withRetry = async <T>(fn: () => Promise<T>, retries = 2): Promise<T> => {
  let lastError: unknown;
  for (let attempt = 0; attempt <= retries; attempt += 1) {
    try {
      return await fn();
    } catch (error) {
      lastError = error;
      if (attempt === retries) {
        break;
      }
      await new Promise((resolve) => setTimeout(resolve, 300 * (attempt + 1)));
    }
  }
  throw lastError;
};
```

`fn` is modelled as `Nat → Except ε α` (result of its `i`-th invocation);
`retries` keeps the JS number type as `Int` so that a negative budget (C9) is
expressible.  The outcome records the returned value or thrown error
(`Except.error none` models `throw undefined`, the uninitialised `lastError`),
how many times `fn` was invoked, and the scheduled backoff delays in order. -/

structure RetryOutcome (ε α : Type) where
  result : Except (Option ε) α
  calls : Nat
  delays : List Nat
deriving Repr

/-- The `for` loop of `withRetry`, entered at iteration `attempt` with
accumulated `lastError`, invocation count and scheduled delays.  The loop
guard `attempt <= retries` is represented by the `fuel` argument, the number
of iterations still to run: `fuel = (retries + 1 - attempt).toNat`, so
`fuel = 0` is `attempt > retries` (loop exit: throw `lastError`) and
`fuel = 1` during an iteration is `attempt === retries` (final attempt:
break, then throw the recorded error). -/
def withRetryGo (fn : Nat → Except ε α) (attempt : Nat)
    (lastError : Option ε) (calls : Nat) (delays : List Nat) :
    Nat → RetryOutcome ε α
  | 0 => ⟨.error lastError, calls, delays⟩
  | fuel + 1 =>
    match fn attempt with
    | .ok a => ⟨.ok a, calls + 1, delays⟩
    | .error e =>
      if fuel = 0 then
        ⟨.error (some e), calls + 1, delays⟩
      else
        withRetryGo fn (attempt + 1) (some e) (calls + 1)
          (delays ++ [300 * (attempt + 1)]) fuel

/-- Function `withRetry fn retries`: run the loop from `attempt = 0` with
`lastError` uninitialised; `retries + 1` iterations fit the guard (none for
a negative budget). -/
def withRetry (fn : Nat → Except ε α) (retries : Int) : RetryOutcome ε α :=
  withRetryGo fn 0 none 0 [] (retries + 1).toNat

/-- Splitting off the first of `m + 1` backoff delays. -/
theorem delays_shift (attempt m : Nat) :
    (List.range (m + 1)).map (fun j => 300 * (attempt + j + 1)) =
      300 * (attempt + 1) ::
        (List.range m).map (fun j => 300 * (attempt + 1 + j + 1)) := by
  rw [List.range_succ_eq_map]
  simp only [List.map_cons, List.map_map, Nat.add_zero]
  congr 1
  apply List.map_congr_left
  intro j _
  simp only [Function.comp_apply]
  omega

/-- If `fn` fails on attempts `attempt, …, attempt+m-1` and succeeds on
attempt `attempt+m`, which is within the budget (`m < fuel`), the loop
returns that success after `m+1` further invocations, having scheduled the
backoff delays `300*(attempt+j+1)` for `j = 0, …, m-1`. -/
theorem withRetryGo_succeeds (fn : Nat → Except ε α) (e : Nat → ε) (a : α) :
    ∀ (m attempt : Nat) (lastError : Option ε) (calls : Nat)
      (delays : List Nat) (fuel : Nat),
      (∀ j, j < m → fn (attempt + j) = .error (e (attempt + j))) →
      fn (attempt + m) = .ok a →
      m < fuel →
      withRetryGo fn attempt lastError calls delays fuel =
        ⟨.ok a, calls + m + 1,
          delays ++ (List.range m).map (fun j => 300 * (attempt + j + 1))⟩ := by
  intro m
  induction m with
  | zero =>
    intro attempt lastError calls delays fuel _hfail hok hfuel
    obtain ⟨fuel, rfl⟩ := Nat.exists_eq_add_of_lt hfuel
    simp only [Nat.add_zero] at hok
    rw [withRetryGo]
    simp [hok]
  | succ m ih =>
    intro attempt lastError calls delays fuel hfail hok hfuel
    obtain ⟨fuel', rfl⟩ : ∃ f, fuel = f + 1 := by
      cases fuel with
      | zero => omega
      | succ f => exact ⟨f, rfl⟩
    have hfa : fn attempt = .error (e attempt) := by
      have := hfail 0 (Nat.succ_pos m)
      simpa using this
    have hfne : ¬ (fuel' = 0) := by omega
    rw [withRetryGo]
    simp only [hfa]
    rw [if_neg hfne]
    have ih' := ih (attempt + 1) (some (e attempt)) (calls + 1)
        (delays ++ [300 * (attempt + 1)]) fuel'
        (by
          intro j hj
          have := hfail (j + 1) (by omega)
          have harr : attempt + 1 + j = attempt + (j + 1) := by omega
          rw [harr]
          exact this)
        (by
          have harr : attempt + 1 + m = attempt + (m + 1) := by omega
          rw [harr]; exact hok)
        (by omega)
    rw [ih', delays_shift, RetryOutcome.mk.injEq]
    refine ⟨rfl, by omega, ?_⟩
    rw [List.append_assoc, List.singleton_append]

/-- If `fn` fails on every attempt from `attempt` on and `n + 1` iterations
still fit the budget, the loop performs `n+1` further invocations, schedules
the delays `300*(attempt+j+1)` for `j = 0, …, n-1`, and throws the error of
the final attempt (`attempt + n`) unchanged. -/
theorem withRetryGo_exhausts (fn : Nat → Except ε α) (e : Nat → ε) :
    ∀ (n attempt : Nat) (lastError : Option ε) (calls : Nat)
      (delays : List Nat),
      (∀ j, fn (attempt + j) = .error (e (attempt + j))) →
      withRetryGo fn attempt lastError calls delays (n + 1) =
        ⟨.error (some (e (attempt + n))), calls + n + 1,
          delays ++ (List.range n).map (fun j => 300 * (attempt + j + 1))⟩ := by
  intro n
  induction n with
  | zero =>
    intro attempt lastError calls delays hfail
    have hfa : fn attempt = .error (e attempt) := by simpa using hfail 0
    rw [withRetryGo]
    simp [hfa]
  | succ n ih =>
    intro attempt lastError calls delays hfail
    have hfa : fn attempt = .error (e attempt) := by simpa using hfail 0
    have hfne : ¬ (n + 1 = 0) := by omega
    rw [withRetryGo]
    simp only [hfa]
    rw [if_neg hfne]
    have ih' := ih (attempt + 1) (some (e attempt)) (calls + 1)
        (delays ++ [300 * (attempt + 1)])
        (fun j => by
          have := hfail (j + 1)
          have harr : attempt + 1 + j = attempt + (j + 1) := by omega
          rw [harr]; exact this)
    rw [ih', delays_shift, RetryOutcome.mk.injEq]
    have harr : attempt + 1 + n = attempt + (n + 1) := by omega
    rw [harr]
    refine ⟨rfl, by omega, ?_⟩
    rw [List.append_assoc, List.singleton_append]

/-- A value returned by the loop was produced by some invocation of `fn`. -/
theorem withRetryGo_ok_of_result (fn : Nat → Except ε α) :
    ∀ (fuel attempt : Nat) (lastError : Option ε) (calls : Nat)
      (delays : List Nat) (a : α),
      (withRetryGo fn attempt lastError calls delays fuel).result = .ok a →
      ∃ i, fn i = .ok a := by
  intro fuel
  induction fuel with
  | zero =>
    intro attempt lastError calls delays a h
    rw [withRetryGo] at h
    simp at h
  | succ fuel ih =>
    intro attempt lastError calls delays a h
    rw [withRetryGo] at h
    cases hfn : fn attempt with
    | ok v =>
      simp only [hfn] at h
      have hv : v = a := by simpa using h
      exact ⟨attempt, by rw [hfn, hv]⟩
    | error err =>
      simp only [hfn] at h
      by_cases hf : fuel = 0
      · rw [if_pos hf] at h
        simp at h
      · rw [if_neg hf] at h
        exact ih (attempt + 1) (some err) (calls + 1)
          (delays ++ [300 * (attempt + 1)]) a h

/-- The loop makes at most `fuel` further invocations of `fn`. -/
theorem withRetryGo_calls_le (fn : Nat → Except ε α) :
    ∀ (fuel attempt : Nat) (lastError : Option ε) (calls : Nat)
      (delays : List Nat),
      (withRetryGo fn attempt lastError calls delays fuel).calls ≤
        calls + fuel := by
  intro fuel
  induction fuel with
  | zero =>
    intro attempt lastError calls delays
    rw [withRetryGo]
    show calls ≤ calls + 0
    omega
  | succ fuel ih =>
    intro attempt lastError calls delays
    rw [withRetryGo]
    cases hfn : fn attempt with
    | ok v =>
      simp only [hfn]
      show calls + 1 ≤ calls + (fuel + 1)
      omega
    | error err =>
      simp only [hfn]
      by_cases hf : fuel = 0
      · rw [if_pos hf]
        show calls + 1 ≤ calls + (fuel + 1)
        omega
      · rw [if_neg hf]
        have := ih (attempt + 1) (some err) (calls + 1)
          (delays ++ [300 * (attempt + 1)])
        omega

/-! ## The metadata lookup `getIspInformation`

```
export const getIspInformation = async (): Promise<string | undefined> => {
  try {
    const res = await fetch(CLOUDFLARE_META_ENDPOINT, { cache: 'no-store' });
    if (!res.ok) {
      throw new Error(`Failed metadata request: ${res.status}`);
    }
    const data = await res.json();
    return data?.client?.asn?.name || data?.client?.iata || data?.client?.ip;
  } catch (error) {
    console.warn('Unable to fetch ISP metadata', error);
    return undefined;
  }
};
```

The `fetch` is modelled by an `Option MetaResponse` (`none` = network error);
`res.json()` by an `Option MetaData` body (`none` = malformed body); the
optional-chaining fields by `Option`s. -/

/-- The `asn` object of the metadata body (`data.client.asn`). -/
structure MetaAsn where
  name : Option String
deriving DecidableEq, Repr

/-- The `client` object of the metadata body. -/
structure MetaClient where
  asn : Option MetaAsn
  iata : Option String
  ip : Option String
deriving DecidableEq, Repr

/-- The parsed JSON body of the metadata endpoint. -/
structure MetaData where
  client : Option MetaClient
deriving DecidableEq, Repr

/-- The `fetch` response for the metadata endpoint: HTTP `ok` flag, `status`,
and the result of `res.json()` (`none` = body fails to parse). -/
structure MetaResponse where
  ok : Bool
  status : Nat
  body : Option MetaData
deriving DecidableEq, Repr

/-- Ways the `try` block of `getIspInformation` can throw. -/
inductive MetaFailure where
  | networkError
  | badStatus (status : Nat)
  | malformedBody
deriving DecidableEq, Repr

/-- JavaScript `a || b` on optional strings: `undefined`/`null` and the empty
string are falsy, so `a || b` is `a` when `a` is a non-empty string and `b`
otherwise. -/
def jsOr (a b : Option String) : Option String :=
  match a with
  | some s => if s = "" then b else some s
  | none => b

/-- The `try` block of `getIspInformation`: throws on network error, on
non-ok status, or on a malformed body; otherwise evaluates
`data?.client?.asn?.name || data?.client?.iata || data?.client?.ip`. -/
def ispLookup (resp : Option MetaResponse) :
    Except MetaFailure (Option String) :=
  match resp with
  | none => .error .networkError
  | some res =>
    if !res.ok then
      .error (.badStatus res.status)
    else
      match res.body with
      | none => .error .malformedBody
      | some data =>
        .ok (jsOr
          (jsOr ((data.client.bind MetaClient.asn).bind MetaAsn.name)
            (data.client.bind MetaClient.iata))
          (data.client.bind MetaClient.ip))

/-- Function `getIspInformation`: the `try` block with its `catch` — every failure is
caught locally and degrades to `none` (`undefined`); the function itself
never throws, which is why its type is `Option String`, not `Except`. -/
def getIspInformation (resp : Option MetaResponse) : Option String :=
  match ispLookup resp with
  | .ok v => v
  | .error _ => none

/-! ## The latency prober `measureLatency`

The timed `fetch` of attempt `i` is modelled by `att i : Except ε ℚ`, the
measured duration in milliseconds or the failure of that attempt (non-ok
status or network/abort error). -/

/-- Source expression `samples.reduce((acc, value) => acc + value, 0)`. -/
def sumList (l : List ℚ) : ℚ :=
  l.foldl (fun acc value => acc + value) 0

/-- Source expression `Math.min(...samples)` for a non-empty list (the engine only applies it
to the 8 collected samples; the `[]` case is arbitrary). -/
def listMin : List ℚ → ℚ
  | [] => 0
  | [x] => x
  | x :: y :: xs => min x (listMin (y :: xs))

/-- Source expression `Math.max(...samples)` for a non-empty list. -/
def listMax : List ℚ → ℚ
  | [] => 0
  | [x] => x
  | x :: y :: xs => max x (listMax (y :: xs))

/-- Source expression `samples.reduce((acc, value) => acc + Math.abs(value - average), 0)`. -/
def jitterSum (samples : List ℚ) (average : ℚ) : ℚ :=
  samples.foldl (fun acc value => acc + |value - average|) 0

/-- The collection loop of `measureLatency`: attempts `i, …, i+n-1`, in
order; the first failing attempt aborts the whole measurement. -/
def collectSamples (att : Nat → Except ε ℚ) : Nat → Nat → Except ε (List ℚ)
  | _, 0 => .ok []
  | i, n + 1 =>
    match att i with
    | .error e => .error e
    | .ok duration =>
      match collectSamples att (i + 1) n with
      | .error e => .error e
      | .ok rest => .ok (duration :: rest)

/-- The aggregation at the end of `measureLatency`. -/
def mkLatencyMetrics (samples : List ℚ) : LatencyMetrics :=
  let average := sumList samples / (samples.length : ℚ)
  { average := average
    min := listMin samples
    max := listMax samples
    jitter := jitterSum samples average / (samples.length : ℚ)
    samples := samples }

/-- Function `measureLatency`: 8 timed attempts, then aggregation. -/
def measureLatency (att : Nat → Except ε ℚ) : Except ε LatencyMetrics :=
  (collectSamples att 0 LATENCY_ATTEMPTS).map mkLatencyMetrics

/-! ## The throughput probers

The timed `fetch` (including draining the body) is modelled by
`probe : Except ε ℚ`, the elapsed wall-clock time in milliseconds
(`performance.now() - start`) or the failure of the probe. -/

/-- Function `measureDownloadForSize`: one timed GET of `sizeBytes` bytes;
`seconds = elapsedMs / 1000`, `mbps = sizeBytes * 8 / seconds / 1_000_000`. -/
def measureDownloadForSize (sizeBytes : ℚ) (probe : Except ε ℚ) :
    Except ε ThroughputSample :=
  match probe with
  | .error e => .error e
  | .ok elapsedMs =>
    let seconds := elapsedMs / 1000
    .ok { sizeBytes := sizeBytes
          durationSeconds := seconds
          mbps := sizeBytes * 8 / seconds / 1000000 }

/-- Function `measureUploadForSize`: one timed POST of `sizeBytes` random bytes; the
timing and the derived fields are computed exactly as for download. -/
def measureUploadForSize (sizeBytes : ℚ) (probe : Except ε ℚ) :
    Except ε ThroughputSample :=
  match probe with
  | .error e => .error e
  | .ok elapsedMs =>
    let seconds := elapsedMs / 1000
    .ok { sizeBytes := sizeBytes
          durationSeconds := seconds
          mbps := sizeBytes * 8 / seconds / 1000000 }

/-- Source expression `samples.reduce((acc, sample) => acc + sample.mbps, 0)`. -/
def mbpsSum (samples : List ThroughputSample) : ℚ :=
  samples.foldl (fun acc sample => acc + sample.mbps) 0

/-- Function `averageThroughput`: `0` for an empty list, otherwise the unweighted
arithmetic mean of the samples' `mbps`. -/
def averageThroughput (samples : List ThroughputSample) : ℚ :=
  if samples.length = 0 then 0
  else mbpsSum samples / (samples.length : ℚ)

/-! ## List-aggregation lemmas -/

theorem sumList_nil : sumList [] = 0 := rfl

/-- Pulling the accumulator out of a fold that only adds. -/
theorem foldl_add_shift {β : Type} (f : β → ℚ) (l : List β) :
    ∀ a : ℚ, l.foldl (fun acc v => acc + f v) a =
      a + l.foldl (fun acc v => acc + f v) 0 := by
  induction l with
  | nil => intro a; simp
  | cons x xs ih =>
    intro a
    simp only [List.foldl_cons]
    rw [ih (a + f x), ih (0 + f x)]
    ring

theorem sumList_cons (x : ℚ) (xs : List ℚ) :
    sumList (x :: xs) = x + sumList xs := by
  unfold sumList
  simp only [List.foldl_cons, zero_add]
  exact foldl_add_shift (fun v => v) xs x

theorem jitterSum_cons (x : ℚ) (xs : List ℚ) (average : ℚ) :
    jitterSum (x :: xs) average = |x - average| + jitterSum xs average := by
  unfold jitterSum
  simp only [List.foldl_cons, zero_add]
  exact foldl_add_shift (fun v => |v - average|) xs |x - average|

theorem mbpsSum_cons (x : ThroughputSample) (xs : List ThroughputSample) :
    mbpsSum (x :: xs) = x.mbps + mbpsSum xs := by
  unfold mbpsSum
  simp only [List.foldl_cons, zero_add]
  exact foldl_add_shift (fun s => s.mbps) xs x.mbps

theorem jitterSum_nonneg (xs : List ℚ) (average : ℚ) :
    0 ≤ jitterSum xs average := by
  induction xs with
  | nil => simp [jitterSum]
  | cons x xs ih =>
    rw [jitterSum_cons]
    have : (0:ℚ) ≤ |x - average| := abs_nonneg _
    linarith

theorem listMin_le_mem (l : List ℚ) : ∀ x ∈ l, listMin l ≤ x := by
  induction l with
  | nil => intro x hx; simp at hx
  | cons a l ih =>
    intro x hx
    cases l with
    | nil =>
      simp only [List.mem_singleton] at hx
      subst hx
      exact le_of_eq rfl
    | cons b m =>
      rw [List.mem_cons] at hx
      rcases hx with rfl | hx
      · exact min_le_left _ _
      · exact le_trans (min_le_right _ _) (ih x hx)

theorem mem_le_listMax (l : List ℚ) : ∀ x ∈ l, x ≤ listMax l := by
  induction l with
  | nil => intro x hx; simp at hx
  | cons a l ih =>
    intro x hx
    cases l with
    | nil =>
      simp only [List.mem_singleton] at hx
      subst hx
      exact le_of_eq rfl
    | cons b m =>
      rw [List.mem_cons] at hx
      rcases hx with rfl | hx
      · exact le_max_left _ _
      · exact le_trans (ih x hx) (le_max_right _ _)

theorem listMin_mul_length_le_sum (l : List ℚ) (h : l ≠ []) :
    listMin l * (l.length : ℚ) ≤ sumList l := by
  induction l with
  | nil => exact absurd rfl h
  | cons a l ih =>
    cases l with
    | nil =>
      simp [listMin, sumList_cons, sumList_nil]
    | cons b m =>
      have h1 : listMin (a :: b :: m) ≤ a :=
        listMin_le_mem _ a (List.mem_cons_self a _)
      have h2 : listMin (a :: b :: m) ≤ listMin (b :: m) :=
        min_le_right _ _
      have h3 : listMin (b :: m) * ((b :: m).length : ℚ) ≤ sumList (b :: m) :=
        ih (by simp)
      have h4 : (0:ℚ) ≤ ((b :: m).length : ℚ) := by positivity
      have h5 : listMin (a :: b :: m) * ((b :: m).length : ℚ) ≤
          listMin (b :: m) * ((b :: m).length : ℚ) :=
        mul_le_mul_of_nonneg_right h2 h4
      rw [sumList_cons, List.length_cons]
      push_cast
      nlinarith [h1, h3, h5]

theorem sum_le_listMax_mul_length (l : List ℚ) (h : l ≠ []) :
    sumList l ≤ listMax l * (l.length : ℚ) := by
  induction l with
  | nil => exact absurd rfl h
  | cons a l ih =>
    cases l with
    | nil =>
      simp [listMax, sumList_cons, sumList_nil]
    | cons b m =>
      have h1 : a ≤ listMax (a :: b :: m) :=
        mem_le_listMax _ a (List.mem_cons_self a _)
      have h2 : listMax (b :: m) ≤ listMax (a :: b :: m) :=
        le_max_right _ _
      have h3 : sumList (b :: m) ≤ listMax (b :: m) * ((b :: m).length : ℚ) :=
        ih (by simp)
      have h4 : (0:ℚ) ≤ ((b :: m).length : ℚ) := by positivity
      have h5 : listMax (b :: m) * ((b :: m).length : ℚ) ≤
          listMax (a :: b :: m) * ((b :: m).length : ℚ) :=
        mul_le_mul_of_nonneg_right h2 h4
      rw [sumList_cons, List.length_cons]
      push_cast
      nlinarith [h1, h3, h5]

theorem listMin_le_average (l : List ℚ) (h : l ≠ []) :
    listMin l ≤ sumList l / (l.length : ℚ) := by
  have hlen : (0:ℚ) < (l.length : ℚ) := by
    have : 0 < l.length := List.length_pos.mpr h
    exact_mod_cast this
  rw [le_div_iff₀ hlen]
  exact listMin_mul_length_le_sum l h

theorem average_le_listMax (l : List ℚ) (h : l ≠ []) :
    sumList l / (l.length : ℚ) ≤ listMax l := by
  have hlen : (0:ℚ) < (l.length : ℚ) := by
    have : 0 < l.length := List.length_pos.mpr h
    exact_mod_cast this
  rw [div_le_iff₀ hlen]
  exact sum_le_listMax_mul_length l h

/-- On success, the collection loop returns one sample per attempt, in
attempt order. -/
theorem collectSamples_ok (att : Nat → Except ε ℚ) :
    ∀ (n i : Nat) (l : List ℚ), collectSamples att i n = .ok l →
      l.length = n ∧ ∀ j, j < n → l.get? j = (att (i + j)).toOption := by
  intro n
  induction n with
  | zero =>
    intro i l h
    simp only [collectSamples] at h
    have : l = [] := by simpa using h.symm
    subst this
    exact ⟨rfl, by omega⟩
  | succ n ih =>
    intro i l h
    rw [collectSamples] at h
    cases hatt : att i with
    | error e => rw [hatt] at h; simp at h
    | ok d =>
      rw [hatt] at h
      cases hrest : collectSamples att (i + 1) n with
      | error e => rw [hrest] at h; simp at h
      | ok rest =>
        rw [hrest] at h
        have hl : l = d :: rest := by simpa using h.symm
        subst hl
        obtain ⟨hlen, hget⟩ := ih (i + 1) rest hrest
        refine ⟨by simp [hlen], ?_⟩
        intro j hj
        cases j with
        | zero => simp [hatt, Except.toOption]
        | succ j =>
          have := hget j (by omega)
          simpa [Nat.add_assoc, Nat.add_comm 1 j] using this

/-! ## The orchestrator `runSpeedTest`

```
export const runSpeedTest = async ({ onProgress, signal, enableUpload = true,
    retries = 2 }: RunSpeedTestOptions = {}): Promise<SpeedTestResult> => {
  const progress = (value: number, phase: SpeedTestPhase) => {
    if (onProgress) { onProgress(Math.min(100, Math.max(0, value)), phase); }
  };
  progress(2, 'latency');
  const latency = await withRetry(() => measureLatency(signal), retries);
  progress(20, 'latency');
  const downloadSamples: ThroughputSample[] = [];
  for (let i = 0; i < DOWNLOAD_SIZES.length; i += 1) {
    const size = DOWNLOAD_SIZES[i];
    const sample = await withRetry(() => measureDownloadForSize(size, signal), retries);
    downloadSamples.push(sample);
    progress(20 + ((i + 1) / DOWNLOAD_SIZES.length) * 55, 'download');
  }
  const downloadMbps = averageThroughput(downloadSamples);
  let uploadMbps: number | null = null;
  if (enableUpload) {
    const uploadSamples: ThroughputSample[] = [];
    for (let i = 0; i < UPLOAD_SIZES.length; i += 1) {
      const size = UPLOAD_SIZES[i];
      const sample = await withRetry(() => measureUploadForSize(size, signal), retries);
      uploadSamples.push(sample);
      progress(80 + ((i + 1) / UPLOAD_SIZES.length) * 18, 'upload');
    }
    uploadMbps = averageThroughput(uploadSamples);
  }
  progress(100, 'completed');
  return { downloadMbps, uploadMbps, latency, timestamp: Date.now() };
};
```

The network environment is passed as three functions: `latAtt j i` is the
duration (ms) or failure of attempt `i` of the `j`-th invocation of
`measureLatency`; `dlMs i a` (resp. `ulMs i a`) is the elapsed time (ms) or
failure of the `a`-th invocation of the download (resp. upload) probe for the
size with index `i`.  The outcome records the list of `(value, phase)` pairs
handed to `onProgress`, in order, the per-stage samples, and the returned
result or propagated error. -/

/-- One invocation of the `onProgress` callback. -/
structure ProgressEvent where
  value : ℚ
  phase : SpeedTestPhase
deriving DecidableEq, Repr

/-- The clamping in the `progress` helper: `Math.min(100, Math.max(0, value))`. -/
def clampProgress (value : ℚ) : ℚ :=
  min 100 (max 0 value)

/-- The progress event emitted after the size with index `i` of a throughput
stage completes: `base + ((i + 1) / total) * scale`, clamped. -/
def stageEvent (base scale total : ℚ) (phase : SpeedTestPhase) (i : Nat) :
    ProgressEvent :=
  ⟨clampProgress (base + (((i : ℚ) + 1) / total) * scale), phase⟩

/-- One throughput stage of the orchestrator: probes the sizes with indices
`i, …, i+n-1` in order, each probe wrapped in `withRetry`; after each success
the sample is recorded and a progress event is emitted; the first exhausted
probe aborts the stage with its error. -/
def stageRun (probeFn : Nat → Nat → Except ε ThroughputSample)
    (retries : Int) (base scale total : ℚ) (phase : SpeedTestPhase) :
    Nat → Nat →
      List ProgressEvent × Except (Option ε) (List ThroughputSample)
  | 0, _ => ([], .ok [])
  | n + 1, i =>
    match (withRetry (fun a => probeFn i a) retries).result with
    | .error e => ([], .error e)
    | .ok sample =>
      match stageRun probeFn retries base scale total phase n (i + 1) with
      | (events, .ok samples) =>
        (stageEvent base scale total phase i :: events,
          .ok (sample :: samples))
      | (events, .error e) =>
        (stageEvent base scale total phase i :: events, .error e)

/-- Everything observable about one `runSpeedTest` invocation. -/
structure RunOutcome (ε : Type) where
  events : List ProgressEvent
  downloadSamples : List ThroughputSample
  uploadSamples : Option (List ThroughputSample)
  result : Except (Option ε) SpeedTestResult
deriving Repr

/-- Function `runSpeedTest`: latency stage, download stage, optional upload stage,
final progress event and result record.  `tstamp` models `Date.now()` at
completion. -/
def runSpeedTest (latAtt : Nat → Nat → Except ε ℚ)
    (dlMs : Nat → Nat → Except ε ℚ) (ulMs : Nat → Nat → Except ε ℚ)
    (enableUpload : Bool) (retries : Int) (tstamp : ℚ) : RunOutcome ε :=
  let ev2 : ProgressEvent := ⟨clampProgress 2, .latency⟩
  match (withRetry (fun j => measureLatency (latAtt j)) retries).result with
  | .error e =>
    { events := [ev2], downloadSamples := [], uploadSamples := none
      result := .error e }
  | .ok latency =>
  let ev20 : ProgressEvent := ⟨clampProgress 20, .latency⟩
  match stageRun
      (fun i a => measureDownloadForSize (DOWNLOAD_SIZES.getD i 0) (dlMs i a))
      retries 20 55 (DOWNLOAD_SIZES.length : ℚ) .download
      DOWNLOAD_SIZES.length 0 with
  | (dlEvents, .error e) =>
    { events := ev2 :: ev20 :: dlEvents, downloadSamples := []
      uploadSamples := none, result := .error e }
  | (dlEvents, .ok downloadSamples) =>
  let downloadMbps := averageThroughput downloadSamples
  if enableUpload then
    match stageRun
        (fun i a => measureUploadForSize (UPLOAD_SIZES.getD i 0) (ulMs i a))
        retries 80 18 (UPLOAD_SIZES.length : ℚ) .upload
        UPLOAD_SIZES.length 0 with
    | (ulEvents, .error e) =>
      { events := ev2 :: ev20 :: (dlEvents ++ ulEvents)
        downloadSamples := downloadSamples, uploadSamples := none
        result := .error e }
    | (ulEvents, .ok uploadSamples) =>
      { events := ev2 :: ev20 ::
          (dlEvents ++ ulEvents ++ [⟨clampProgress 100, .completed⟩])
        downloadSamples := downloadSamples
        uploadSamples := some uploadSamples
        result := .ok
          { downloadMbps := some downloadMbps
            uploadMbps := some (averageThroughput uploadSamples)
            latency := some latency
            timestamp := tstamp } }
  else
    { events := ev2 :: ev20 ::
        (dlEvents ++ [⟨clampProgress 100, .completed⟩])
      downloadSamples := downloadSamples
      uploadSamples := none
      result := .ok
        { downloadMbps := some downloadMbps
          uploadMbps := none
          latency := some latency
          timestamp := tstamp } }

/-! ## Progress lemmas -/

theorem clampProgress_nonneg (v : ℚ) : 0 ≤ clampProgress v :=
  le_min (by norm_num) (le_max_left 0 v)

theorem clampProgress_le_100 (v : ℚ) : clampProgress v ≤ 100 :=
  min_le_left _ _

theorem clampProgress_mono {v w : ℚ} (h : v ≤ w) :
    clampProgress v ≤ clampProgress w :=
  min_le_min (le_refl 100) (max_le_max (le_refl 0) h)

theorem clampProgress_of_bounds {v : ℚ} (h0 : 0 ≤ v) (h100 : v ≤ 100) :
    clampProgress v = v := by
  unfold clampProgress
  rw [max_eq_right h0, min_eq_right h100]

/-- The value of a stage progress event is monotone in the size index
whenever the stage's scale is non-negative and its total positive. -/
theorem stageEvent_value_mono (base scale total : ℚ) (phase : SpeedTestPhase)
    (hscale : 0 ≤ scale) (htotal : 0 < total) {j j' : Nat} (h : j ≤ j') :
    (stageEvent base scale total phase j).value ≤
      (stageEvent base scale total phase j').value := by
  apply clampProgress_mono
  have hjj : (j : ℚ) ≤ (j' : ℚ) := by exact_mod_cast h
  gcongr

/-- Every event emitted by a stage is the stage event of one of the probed
size indices. -/
theorem stageRun_events_mem (probeFn : Nat → Nat → Except ε ThroughputSample)
    (retries : Int) (base scale total : ℚ) (phase : SpeedTestPhase) :
    ∀ (n i : Nat) (e : ProgressEvent),
      e ∈ (stageRun probeFn retries base scale total phase n i).1 →
      ∃ j, i ≤ j ∧ j < i + n ∧ e = stageEvent base scale total phase j := by
  intro n
  induction n with
  | zero =>
    intro i e he
    simp [stageRun] at he
  | succ n ih =>
    intro i e he
    rw [stageRun] at he
    cases hw : (withRetry (fun a => probeFn i a) retries).result with
    | error e0 =>
      rw [hw] at he
      simp at he
    | ok smp =>
      rw [hw] at he
      rcases hrec : stageRun probeFn retries base scale total phase n (i + 1)
        with ⟨evs, res⟩
      rw [hrec] at he
      cases res with
      | ok samples =>
        simp only [List.mem_cons] at he
        rcases he with rfl | he
        · exact ⟨i, le_refl i, by omega, rfl⟩
        · obtain ⟨j, hj1, hj2, hj3⟩ := ih (i + 1) e (by rw [hrec]; exact he)
          exact ⟨j, by omega, by omega, hj3⟩
      | error e0 =>
        simp only [List.mem_cons] at he
        rcases he with rfl | he
        · exact ⟨i, le_refl i, by omega, rfl⟩
        · obtain ⟨j, hj1, hj2, hj3⟩ := ih (i + 1) e (by rw [hrec]; exact he)
          exact ⟨j, by omega, by omega, hj3⟩

/-- The events emitted by a stage have non-decreasing values. -/
theorem stageRun_events_pairwise
    (probeFn : Nat → Nat → Except ε ThroughputSample)
    (retries : Int) (base scale total : ℚ) (phase : SpeedTestPhase)
    (hscale : 0 ≤ scale) (htotal : 0 < total) :
    ∀ (n i : Nat),
      (stageRun probeFn retries base scale total phase n i).1.Pairwise
        (fun e₁ e₂ => e₁.value ≤ e₂.value) := by
  intro n
  induction n with
  | zero =>
    intro i
    simp [stageRun]
  | succ n ih =>
    intro i
    rw [stageRun]
    cases hw : (withRetry (fun a => probeFn i a) retries).result with
    | error e0 => simp
    | ok smp =>
      rcases hrec : stageRun probeFn retries base scale total phase n (i + 1)
        with ⟨evs, res⟩
      have hpw : evs.Pairwise (fun e₁ e₂ => e₁.value ≤ e₂.value) := by
        have := ih (i + 1)
        rw [hrec] at this
        exact this
      have hhead : ∀ e ∈ evs,
          (stageEvent base scale total phase i).value ≤ e.value := by
        intro e he
        obtain ⟨j, hj1, _hj2, rfl⟩ :=
          stageRun_events_mem probeFn retries base scale total phase n
            (i + 1) e (by rw [hrec]; exact he)
        exact stageEvent_value_mono base scale total phase hscale htotal
          (by omega)
      cases res with
      | ok samples => exact List.pairwise_cons.mpr ⟨hhead, hpw⟩
      | error e0 => exact List.pairwise_cons.mpr ⟨hhead, hpw⟩

/-- Every event of a run is the 2%-latency event, the 20%-latency event, a
download stage event, an upload stage event (only with upload enabled), or
the 100%-completed event. -/
theorem runSpeedTest_events_mem_cases
    (latAtt dlMs ulMs : Nat → Nat → Except ε ℚ)
    (enableUpload : Bool) (retries : Int) (tstamp : ℚ) :
    ∀ e ∈ (runSpeedTest latAtt dlMs ulMs enableUpload retries tstamp).events,
      e = ⟨clampProgress 2, .latency⟩ ∨
      e = ⟨clampProgress 20, .latency⟩ ∨
      (∃ j, j < DOWNLOAD_SIZES.length ∧
        e = stageEvent 20 55 (DOWNLOAD_SIZES.length : ℚ) .download j) ∨
      (enableUpload = true ∧ ∃ j, j < UPLOAD_SIZES.length ∧
        e = stageEvent 80 18 (UPLOAD_SIZES.length : ℚ) .upload j) ∨
      e = ⟨clampProgress 100, .completed⟩ := by
  intro e he
  unfold runSpeedTest at he
  cases hlat : (withRetry (fun j => measureLatency (latAtt j)) retries).result
    with
  | error err =>
    rw [hlat] at he
    simp only [List.mem_singleton] at he
    exact Or.inl he
  | ok latency =>
    rw [hlat] at he
    rcases hdl : stageRun
        (fun i a =>
          measureDownloadForSize (DOWNLOAD_SIZES.getD i 0) (dlMs i a))
        retries 20 55 (DOWNLOAD_SIZES.length : ℚ) .download
        DOWNLOAD_SIZES.length 0 with ⟨dlEvents, dlRes⟩
    rw [hdl] at he
    have hdlmem : ∀ e' ∈ dlEvents, ∃ j, j < DOWNLOAD_SIZES.length ∧
        e' = stageEvent 20 55 (DOWNLOAD_SIZES.length : ℚ) .download j := by
      intro e' he'
      obtain ⟨j, _, hj2, hj3⟩ := stageRun_events_mem _ retries _ _ _ _
        DOWNLOAD_SIZES.length 0 e' (by rw [hdl]; exact he')
      exact ⟨j, by omega, hj3⟩
    cases dlRes with
    | error err =>
      simp only [List.mem_cons] at he
      rcases he with rfl | rfl | he
      · exact Or.inl rfl
      · exact Or.inr (Or.inl rfl)
      · exact Or.inr (Or.inr (Or.inl (hdlmem e he)))
    | ok downloadSamples =>
      cases enableUpload with
      | false =>
        simp only [Bool.false_eq_true, if_neg, not_false_eq_true,
          List.mem_cons, List.mem_append, List.mem_singleton,
          List.not_mem_nil, or_false] at he
        rcases he with rfl | rfl | he | rfl
        · exact Or.inl rfl
        · exact Or.inr (Or.inl rfl)
        · exact Or.inr (Or.inr (Or.inl (hdlmem e he)))
        · exact Or.inr (Or.inr (Or.inr (Or.inr rfl)))
      | true =>
        rcases hul : stageRun
            (fun i a =>
              measureUploadForSize (UPLOAD_SIZES.getD i 0) (ulMs i a))
            retries 80 18 (UPLOAD_SIZES.length : ℚ) .upload
            UPLOAD_SIZES.length 0 with ⟨ulEvents, ulRes⟩
        rw [hul] at he
        have hulmem : ∀ e' ∈ ulEvents, ∃ j, j < UPLOAD_SIZES.length ∧
            e' = stageEvent 80 18 (UPLOAD_SIZES.length : ℚ) .upload j := by
          intro e' he'
          obtain ⟨j, _, hj2, hj3⟩ := stageRun_events_mem _ retries _ _ _ _
            UPLOAD_SIZES.length 0 e' (by rw [hul]; exact he')
          exact ⟨j, by omega, hj3⟩
        cases ulRes with
        | error err =>
          simp only [if_pos, List.mem_cons, List.mem_append,
            List.not_mem_nil, or_false] at he
          rcases he with rfl | rfl | he | he
          · exact Or.inl rfl
          · exact Or.inr (Or.inl rfl)
          · exact Or.inr (Or.inr (Or.inl (hdlmem e he)))
          · exact Or.inr (Or.inr (Or.inr (Or.inl ⟨rfl, hulmem e he⟩)))
        | ok uploadSamples =>
          simp only [if_pos, List.mem_cons, List.mem_append,
            List.mem_singleton, List.not_mem_nil, or_false] at he
          rcases he with rfl | rfl | (he | he) | rfl
          · exact Or.inl rfl
          · exact Or.inr (Or.inl rfl)
          · exact Or.inr (Or.inr (Or.inl (hdlmem e he)))
          · exact Or.inr (Or.inr (Or.inr (Or.inl ⟨rfl, hulmem e he⟩)))
          · exact Or.inr (Or.inr (Or.inr (Or.inr rfl)))

theorem clampProgress_two : clampProgress 2 = 2 :=
  clampProgress_of_bounds (by norm_num) (by norm_num)

theorem clampProgress_twenty : clampProgress 20 = 20 :=
  clampProgress_of_bounds (by norm_num) (by norm_num)

theorem clampProgress_hundred : clampProgress 100 = 100 :=
  clampProgress_of_bounds (by norm_num) (by norm_num)

/-- Download-stage progress values are at least 20. -/
theorem dl_event_value_lb (j : Nat) :
    20 ≤ (stageEvent 20 55 (DOWNLOAD_SIZES.length : ℚ) .download j).value := by
  have hx : (20:ℚ) ≤
      20 + (((j:ℚ) + 1) / (DOWNLOAD_SIZES.length : ℚ)) * 55 := by
    have h0 : (0:ℚ) ≤ (((j:ℚ) + 1) / (DOWNLOAD_SIZES.length : ℚ)) * 55 := by
      positivity
    linarith
  have := clampProgress_mono hx
  rw [clampProgress_twenty] at this
  exact this

/-- Download-stage progress values for the three sizes are at most 75. -/
theorem dl_event_value_ub (j : Nat) (hj : j < DOWNLOAD_SIZES.length) :
    (stageEvent 20 55 (DOWNLOAD_SIZES.length : ℚ) .download j).value ≤ 75 := by
  have hlen : (DOWNLOAD_SIZES.length : ℚ) = 3 := by norm_num [DOWNLOAD_SIZES]
  have hj3 : (j:ℚ) + 1 ≤ 3 := by
    have h3 : j < 3 := by simpa [DOWNLOAD_SIZES] using hj
    have : (j:ℚ) ≤ 2 := by exact_mod_cast Nat.lt_succ_iff.mp h3
    linarith
  have hx : 20 + (((j:ℚ) + 1) / (DOWNLOAD_SIZES.length : ℚ)) * 55 ≤ 75 := by
    rw [hlen]
    have h1 : ((j:ℚ) + 1) / 3 ≤ 1 := by
      rw [div_le_one (by norm_num)]
      linarith
    nlinarith [h1]
  have h75 : clampProgress (75:ℚ) = 75 :=
    clampProgress_of_bounds (by norm_num) (by norm_num)
  have := clampProgress_mono hx
  rw [h75] at this
  exact this

/-- Upload-stage progress values are at least 89. -/
theorem ul_event_value_lb (j : Nat) :
    89 ≤ (stageEvent 80 18 (UPLOAD_SIZES.length : ℚ) .upload j).value := by
  have hlen : (UPLOAD_SIZES.length : ℚ) = 2 := by norm_num [UPLOAD_SIZES]
  have hx : (89:ℚ) ≤
      80 + (((j:ℚ) + 1) / (UPLOAD_SIZES.length : ℚ)) * 18 := by
    rw [hlen]
    have h1 : (1:ℚ) / 2 ≤ ((j:ℚ) + 1) / 2 := by
      have : (0:ℚ) ≤ (j:ℚ) := by positivity
      apply div_le_div_of_nonneg_right ?a ?b
      case a => linarith
      case b => norm_num
    nlinarith [h1]
  have h89 : clampProgress (89:ℚ) = 89 :=
    clampProgress_of_bounds (by norm_num) (by norm_num)
  have := clampProgress_mono hx
  rw [h89] at this
  exact this

/-- Upload-stage progress values for the two sizes are at most 98. -/
theorem ul_event_value_ub (j : Nat) (hj : j < UPLOAD_SIZES.length) :
    (stageEvent 80 18 (UPLOAD_SIZES.length : ℚ) .upload j).value ≤ 98 := by
  have hlen : (UPLOAD_SIZES.length : ℚ) = 2 := by norm_num [UPLOAD_SIZES]
  have hj2 : (j:ℚ) + 1 ≤ 2 := by
    have h2 : j < 2 := by simpa [UPLOAD_SIZES] using hj
    have : (j:ℚ) ≤ 1 := by exact_mod_cast Nat.lt_succ_iff.mp h2
    linarith
  have hx : 80 + (((j:ℚ) + 1) / (UPLOAD_SIZES.length : ℚ)) * 18 ≤ 98 := by
    rw [hlen]
    have h1 : ((j:ℚ) + 1) / 2 ≤ 1 := by
      rw [div_le_one (by norm_num)]
      linarith
    nlinarith [h1]
  have h98 : clampProgress (98:ℚ) = 98 :=
    clampProgress_of_bounds (by norm_num) (by norm_num)
  have := clampProgress_mono hx
  rw [h98] at this
  exact this

/-- The values handed to `onProgress` are non-decreasing over a whole run,
whatever the network does and wherever the run fails. -/
theorem runSpeedTest_events_pairwise
    (latAtt dlMs ulMs : Nat → Nat → Except ε ℚ)
    (enableUpload : Bool) (retries : Int) (tstamp : ℚ) :
    (runSpeedTest latAtt dlMs ulMs enableUpload retries tstamp).events.Pairwise
      (fun e₁ e₂ => e₁.value ≤ e₂.value) := by
  unfold runSpeedTest
  cases hlat : (withRetry (fun j => measureLatency (latAtt j)) retries).result
    with
  | error err => simp
  | ok latency =>
    rcases hdl : stageRun
        (fun i a =>
          measureDownloadForSize (DOWNLOAD_SIZES.getD i 0) (dlMs i a))
        retries 20 55 (DOWNLOAD_SIZES.length : ℚ) .download
        DOWNLOAD_SIZES.length 0 with ⟨dlEvents, dlRes⟩
    have hdl_shape : ∀ e ∈ dlEvents, ∃ j, j < DOWNLOAD_SIZES.length ∧
        e = stageEvent 20 55 (DOWNLOAD_SIZES.length : ℚ) .download j := by
      intro e' he'
      obtain ⟨j, _, hj2, hj3⟩ := stageRun_events_mem _ retries _ _ _ _
        DOWNLOAD_SIZES.length 0 e' (by rw [hdl]; exact he')
      exact ⟨j, by omega, hj3⟩
    have hdl_lb : ∀ e ∈ dlEvents, 20 ≤ e.value := by
      intro e' he'
      obtain ⟨j, _, rfl⟩ := hdl_shape e' he'
      exact dl_event_value_lb j
    have hdl_ub : ∀ e ∈ dlEvents, e.value ≤ 75 := by
      intro e' he'
      obtain ⟨j, hj, rfl⟩ := hdl_shape e' he'
      exact dl_event_value_ub j hj
    have hdl_pw : dlEvents.Pairwise (fun e₁ e₂ => e₁.value ≤ e₂.value) := by
      have := stageRun_events_pairwise
        (fun i a =>
          measureDownloadForSize (DOWNLOAD_SIZES.getD i 0) (dlMs i a))
        retries 20 55 (DOWNLOAD_SIZES.length : ℚ) .download
        (by norm_num) (by norm_num [DOWNLOAD_SIZES])
        DOWNLOAD_SIZES.length 0
      rw [hdl] at this
      exact this
    cases dlRes with
    | error err =>
      refine List.pairwise_cons.mpr ⟨?_, List.pairwise_cons.mpr ⟨?_, hdl_pw⟩⟩
      · intro e' he'
        simp only [List.mem_cons] at he'
        rcases he' with rfl | he'
        · norm_num [clampProgress_two, clampProgress_twenty]
        · have := hdl_lb e' he'
          simp only [clampProgress_two]
          linarith
      · intro e' he'
        have := hdl_lb e' he'
        simp only [clampProgress_twenty]
        linarith
    | ok downloadSamples =>
      cases enableUpload with
      | false =>
        simp only [Bool.false_eq_true, if_neg, not_false_eq_true]
        refine List.pairwise_cons.mpr ⟨?_, List.pairwise_cons.mpr ⟨?_, ?_⟩⟩
        · intro e' he'
          simp only [List.mem_cons, List.mem_append,
            List.mem_singleton, List.not_mem_nil, or_false] at he'
          simp only [clampProgress_two]
          rcases he' with rfl | (he' | rfl)
          · norm_num [clampProgress_twenty]
          · have := hdl_lb e' he'
            linarith
          · simp only [clampProgress_hundred]
            norm_num
        · intro e' he'
          simp only [List.mem_append, List.mem_singleton,
            List.not_mem_nil, or_false] at he'
          simp only [clampProgress_twenty]
          rcases he' with he' | rfl
          · have := hdl_lb e' he'
            linarith
          · simp only [clampProgress_hundred]
            norm_num
        · rw [List.pairwise_append]
          refine ⟨hdl_pw, by simp, ?_⟩
          intro e₁ h₁ e₂ h₂
          simp only [List.mem_singleton] at h₂
          subst h₂
          have := hdl_ub e₁ h₁
          simp only [clampProgress_hundred]
          linarith
      | true =>
        rcases hul : stageRun
            (fun i a =>
              measureUploadForSize (UPLOAD_SIZES.getD i 0) (ulMs i a))
            retries 80 18 (UPLOAD_SIZES.length : ℚ) .upload
            UPLOAD_SIZES.length 0 with ⟨ulEvents, ulRes⟩
        have hul_shape : ∀ e ∈ ulEvents, ∃ j, j < UPLOAD_SIZES.length ∧
            e = stageEvent 80 18 (UPLOAD_SIZES.length : ℚ) .upload j := by
          intro e' he'
          obtain ⟨j, _, hj2, hj3⟩ := stageRun_events_mem _ retries _ _ _ _
            UPLOAD_SIZES.length 0 e' (by rw [hul]; exact he')
          exact ⟨j, by omega, hj3⟩
        have hul_lb : ∀ e ∈ ulEvents, 89 ≤ e.value := by
          intro e' he'
          obtain ⟨j, _, rfl⟩ := hul_shape e' he'
          exact ul_event_value_lb j
        have hul_ub : ∀ e ∈ ulEvents, e.value ≤ 98 := by
          intro e' he'
          obtain ⟨j, hj, rfl⟩ := hul_shape e' he'
          exact ul_event_value_ub j hj
        have hul_pw : ulEvents.Pairwise (fun e₁ e₂ => e₁.value ≤ e₂.value) := by
          have := stageRun_events_pairwise
            (fun i a =>
              measureUploadForSize (UPLOAD_SIZES.getD i 0) (ulMs i a))
            retries 80 18 (UPLOAD_SIZES.length : ℚ) .upload
            (by norm_num) (by norm_num [UPLOAD_SIZES])
            UPLOAD_SIZES.length 0
          rw [hul] at this
          exact this
        have hcross : ∀ e₁ ∈ dlEvents, ∀ e₂ ∈ ulEvents,
            e₁.value ≤ e₂.value := by
          intro e₁ h₁ e₂ h₂
          have hu := hdl_ub e₁ h₁
          have hl := hul_lb e₂ h₂
          linarith
        cases ulRes with
        | error err =>
          simp only [if_pos]
          refine List.pairwise_cons.mpr ⟨?_, List.pairwise_cons.mpr ⟨?_, ?_⟩⟩
          · intro e' he'
            simp only [List.mem_cons, List.mem_append] at he'
            simp only [clampProgress_two]
            rcases he' with rfl | (he' | he')
            · norm_num [clampProgress_twenty]
            · have := hdl_lb e' he'
              linarith
            · have := hul_lb e' he'
              linarith
          · intro e' he'
            simp only [List.mem_append] at he'
            simp only [clampProgress_twenty]
            rcases he' with he' | he'
            · have := hdl_lb e' he'
              linarith
            · have := hul_lb e' he'
              linarith
          · rw [List.pairwise_append]
            exact ⟨hdl_pw, hul_pw, hcross⟩
        | ok uploadSamples =>
          simp only [if_pos]
          refine List.pairwise_cons.mpr ⟨?_, List.pairwise_cons.mpr ⟨?_, ?_⟩⟩
          · intro e' he'
            simp only [List.mem_cons, List.mem_append,
              List.mem_singleton, List.not_mem_nil, or_false] at he'
            simp only [clampProgress_two]
            rcases he' with rfl | ((he' | he') | rfl)
            · norm_num [clampProgress_twenty]
            · have := hdl_lb e' he'
              linarith
            · have := hul_lb e' he'
              linarith
            · simp only [clampProgress_hundred]
              norm_num
          · intro e' he'
            simp only [List.mem_append, List.mem_singleton,
            List.not_mem_nil, or_false] at he'
            simp only [clampProgress_twenty]
            rcases he' with (he' | he') | rfl
            · have := hdl_lb e' he'
              linarith
            · have := hul_lb e' he'
              linarith
            · simp only [clampProgress_hundred]
              norm_num
          · rw [List.pairwise_append, List.pairwise_append]
            refine ⟨⟨hdl_pw, hul_pw, hcross⟩, by simp, ?_⟩
            intro e₁ h₁ e₂ h₂
            simp only [List.mem_singleton] at h₂
            subst h₂
            simp only [List.mem_append] at h₁
            simp only [clampProgress_hundred]
            rcases h₁ with h₁ | h₁
            · have := hdl_ub e₁ h₁
              linarith
            · have := hul_ub e₁ h₁
              linarith

/-- When a run returns, `downloadMbps` is the average of the recorded
download samples, `uploadMbps` the average of the recorded upload samples
when they exist (`none` otherwise), the latency record is the one measured,
and the timestamp is the completion instant. -/
theorem runSpeedTest_result_ok
    (latAtt dlMs ulMs : Nat → Nat → Except ε ℚ) (enableUpload : Bool)
    (retries : Int) (tstamp : ℚ) (res : SpeedTestResult)
    (h : (runSpeedTest latAtt dlMs ulMs enableUpload retries
        tstamp).result = .ok res) :
    res.downloadMbps = some (averageThroughput
      (runSpeedTest latAtt dlMs ulMs enableUpload retries
        tstamp).downloadSamples) ∧
    res.uploadMbps = Option.map averageThroughput
      (runSpeedTest latAtt dlMs ulMs enableUpload retries
        tstamp).uploadSamples ∧
    res.timestamp = tstamp := by
  unfold runSpeedTest at h ⊢
  cases hlat : (withRetry (fun j => measureLatency (latAtt j)) retries).result
    with
  | error err =>
    rw [hlat] at h
    simp at h
  | ok latency =>
    rw [hlat] at h
    rcases hdl : stageRun
        (fun i a =>
          measureDownloadForSize (DOWNLOAD_SIZES.getD i 0) (dlMs i a))
        retries 20 55 (DOWNLOAD_SIZES.length : ℚ) .download
        DOWNLOAD_SIZES.length 0 with ⟨dlEvents, dlRes⟩
    rw [hdl] at h
    cases dlRes with
    | error err =>
      simp at h
    | ok downloadSamples =>
      cases enableUpload with
      | false =>
        simp only [Bool.false_eq_true, if_neg, not_false_eq_true] at h ⊢
        have hres : res =
            { downloadMbps := some (averageThroughput downloadSamples)
              uploadMbps := none
              latency := some latency
              timestamp := tstamp } := by
          simpa using h.symm
        subst hres
        simp
      | true =>
        rcases hul : stageRun
            (fun i a =>
              measureUploadForSize (UPLOAD_SIZES.getD i 0) (ulMs i a))
            retries 80 18 (UPLOAD_SIZES.length : ℚ) .upload
            UPLOAD_SIZES.length 0 with ⟨ulEvents, ulRes⟩
        rw [hul] at h
        cases ulRes with
        | error err =>
          simp at h
        | ok uploadSamples =>
          have hres : res =
              { downloadMbps := some (averageThroughput downloadSamples)
                uploadMbps := some (averageThroughput uploadSamples)
                latency := some latency
                timestamp := tstamp } := by
            simpa using h.symm
          subst hres
          simp

/-- A value returned by `withRetry` was produced by some invocation of the
wrapped operation. -/
theorem withRetry_ok_of_result (fn : Nat → Except ε α) (retries : Int)
    (a : α) (h : (withRetry fn retries).result = .ok a) :
    ∃ i, fn i = .ok a :=
  withRetryGo_ok_of_result fn (retries + 1).toNat 0 none 0 [] a h

/-- Wrapper `withRetry` invokes the wrapped operation at most `retries + 1` times. -/
theorem withRetry_calls_le (fn : Nat → Except ε α) (retries : Int) :
    (withRetry fn retries).calls ≤ (retries + 1).toNat := by
  have h := withRetryGo_calls_le fn (retries + 1).toNat 0 none 0 []
  rw [withRetry]
  omega

/-- With upload disabled, the run never touches the upload environment. -/
theorem runSpeedTest_noUpload_independent
    (latAtt dlMs ul₁ ul₂ : Nat → Nat → Except ε ℚ) (retries : Int)
    (tstamp : ℚ) :
    runSpeedTest latAtt dlMs ul₁ false retries tstamp =
      runSpeedTest latAtt dlMs ul₂ false retries tstamp := by
  unfold runSpeedTest
  cases hlat : (withRetry (fun j => measureLatency (latAtt j)) retries).result
    with
  | error err => rfl
  | ok latency =>
    rcases hdl : stageRun
        (fun i a =>
          measureDownloadForSize (DOWNLOAD_SIZES.getD i 0) (dlMs i a))
        retries 20 55 (DOWNLOAD_SIZES.length : ℚ) .download
        DOWNLOAD_SIZES.length 0 with ⟨dlEvents, dlRes⟩
    cases dlRes with
    | error err => rfl
    | ok downloadSamples => simp

/-- With upload disabled, no upload samples are recorded. -/
theorem runSpeedTest_noUpload_uploadSamples
    (latAtt dlMs ulMs : Nat → Nat → Except ε ℚ) (retries : Int)
    (tstamp : ℚ) :
    (runSpeedTest latAtt dlMs ulMs false retries tstamp).uploadSamples =
      none := by
  unfold runSpeedTest
  cases hlat : (withRetry (fun j => measureLatency (latAtt j)) retries).result
    with
  | error err => rfl
  | ok latency =>
    rcases hdl : stageRun
        (fun i a =>
          measureDownloadForSize (DOWNLOAD_SIZES.getD i 0) (dlMs i a))
        retries 20 55 (DOWNLOAD_SIZES.length : ℚ) .download
        DOWNLOAD_SIZES.length 0 with ⟨dlEvents, dlRes⟩
    cases dlRes with
    | error err => rfl
    | ok downloadSamples => simp

/-! ## Claim theorems -/

/-- C1: for a retry budget `r ≥ 0`, if the wrapped operation fails exactly
`k` times and then succeeds with `r ≥ k`, `withRetry` returns the success
value and invokes the operation exactly `k + 1` times; if the operation
fails on every attempt, the operation is invoked exactly `r + 1` times and
the wrapper raises the error of the final attempt unchanged — no error is
synthesized. -/
theorem C1_withRetry_contract (fn : Nat → Except ε α) (r : Int)
    (e : Nat → ε) (a : α) (k : Nat) :
    ((∀ i, i < k → fn i = .error (e i)) → fn k = .ok a → (k : Int) ≤ r →
      (withRetry fn r).result = .ok a ∧ (withRetry fn r).calls = k + 1) ∧
    (0 ≤ r → (∀ i, fn i = .error (e i)) →
      (withRetry fn r).result = .error (some (e r.toNat)) ∧
        (withRetry fn r).calls = r.toNat + 1) := by
  constructor
  · intro hfail hok hle
    have h := withRetryGo_succeeds fn e a k 0 none 0 [] (r + 1).toNat
      (by intro j hj; simpa using hfail j hj)
      (by simpa using hok)
      (by omega)
    rw [withRetry, h]
    exact ⟨rfl, by simp⟩
  · intro hr hfail
    have hfuel : (r + 1).toNat = r.toNat + 1 := by omega
    have h := withRetryGo_exhausts fn e r.toNat 0 none 0 []
      (by intro j; simpa using hfail j)
    rw [withRetry, hfuel, h]
    exact ⟨by simp, by simp⟩

/-- Witness for C1: a stub failing once then succeeding, with budget 2, is
invoked twice and yields the success value; an always-failing stub with
budget 2 is invoked three times and the error of attempt 2 is raised. -/
theorem C1_withRetry_contract_witness :
    ((withRetry (fun i => if i < 1 then .error i else .ok 42) 2).result =
        .ok 42 ∧
      (withRetry (fun i => if i < 1 then .error i else .ok 42) 2).calls =
        2) ∧
    ((withRetry (fun i => (.error i : Except Nat Nat)) 2).result =
        .error (some 2) ∧
      (withRetry (fun i => (.error i : Except Nat Nat)) 2).calls = 3) := by
  constructor
  · exact (C1_withRetry_contract
      (fun i => if i < 1 then .error i else .ok 42) 2 (fun i => i) 42 1).1
      (by intro i hi; simp [show i = 0 by omega])
      (by norm_num)
      (by norm_num)
  · have h := (C1_withRetry_contract
      (fun i => (.error i : Except Nat Nat)) 2 (fun i => i) 0 0).2
      (by norm_num) (fun i => rfl)
    simpa using h

/-- C9: a negative retry budget makes the loop body unreachable, so the
wrapped operation is never invoked and the uninitialised `lastError`
(`undefined`, modelled `none`) is thrown. -/
theorem C9_negative_retries (fn : Nat → Except ε α) (r : Int) (hr : r < 0) :
    (withRetry fn r).result = .error none ∧ (withRetry fn r).calls = 0 := by
  have hfuel : (r + 1).toNat = 0 := by omega
  rw [withRetry, hfuel, withRetryGo]
  exact ⟨rfl, rfl⟩

/-- Witness for C9 at `retries = -1`: the operation (which would succeed)
is never invoked, and `undefined` is thrown. -/
theorem C9_negative_retries_witness :
    (withRetry (fun i => (.ok i : Except Nat Nat)) (-1)).result =
      .error none ∧
    (withRetry (fun i => (.ok i : Except Nat Nat)) (-1)).calls = 0 :=
  C9_negative_retries (fun i => (.ok i : Except Nat Nat)) (-1) (by norm_num)

/-- C7 counterexample: with an always-failing operation and budget 2, the
delay scheduled before the FIRST retry is `300 * 1 = 300` ms — not the
`300 * (1 + 1) = 600` ms the claim's indexing (`attempt_index` starting at
1 for the first retry) prescribes. -/
theorem C7_counterexample :
    (withRetry (fun i => (.error i : Except Nat Nat)) 2).delays.head? =
      some 300 ∧ (300 : Nat) ≠ 600 := by
  have h := withRetryGo_exhausts (fun i => (.error i : Except Nat Nat))
    (fun i => i) 2 0 none 0 [] (fun j => rfl)
  have hfuel : ((2:Int) + 1).toNat = 2 + 1 := rfl
  rw [withRetry, hfuel, h]
  constructor
  · simp [List.range_succ]
  · decide

/-- C7 amended: the delay scheduled before the `n`-th retry (`n` starting
at 1 for the first retry) is `300 * n` ms — equivalently `300 * (attempt +
1)` where `attempt` is the 0-based index of the attempt that just failed —
and at most `r` additional attempts are made after the initial one, for a
total of at most `r + 1` invocations, attained when every attempt fails. -/
theorem C7_amended_backoff (fn : Nat → Except ε α) (r : Int)
    (e : Nat → ε) (a : α) (k : Nat) :
    ((∀ i, i < k → fn i = .error (e i)) → fn k = .ok a → (k : Int) ≤ r →
      (withRetry fn r).delays =
        (List.range k).map (fun n => 300 * (n + 1))) ∧
    (0 ≤ r → (∀ i, fn i = .error (e i)) →
      (withRetry fn r).delays =
        (List.range r.toNat).map (fun n => 300 * (n + 1)) ∧
      (withRetry fn r).calls = r.toNat + 1) ∧
    (withRetry fn r).calls ≤ (r + 1).toNat := by
  refine ⟨?_, ?_, withRetry_calls_le fn r⟩
  · intro hfail hok hle
    have h := withRetryGo_succeeds fn e a k 0 none 0 [] (r + 1).toNat
      (by intro j hj; simpa using hfail j hj)
      (by simpa using hok)
      (by omega)
    rw [withRetry, h]
    simp
  · intro hr hfail
    have hfuel : (r + 1).toNat = r.toNat + 1 := by omega
    have h := withRetryGo_exhausts fn e r.toNat 0 none 0 []
      (by intro j; simpa using hfail j)
    rw [withRetry, hfuel, h]
    constructor
    · simp
    · simp

/-- Witness for C7 amended: with budget 2 and an always-failing operation,
the scheduled delays are exactly `[300, 600]` and three invocations are
made. -/
theorem C7_amended_backoff_witness :
    (withRetry (fun i => (.error i : Except Nat Nat)) 2).delays =
      [300, 600] ∧
    (withRetry (fun i => (.error i : Except Nat Nat)) 2).calls = 3 := by
  have h := (C7_amended_backoff (fun i => (.error i : Except Nat Nat)) 2
    (fun i => i) 0 0).2.1 (by norm_num) (fun i => rfl)
  obtain ⟨hd, hc⟩ := h
  refine ⟨?_, by simpa using hc⟩
  rw [hd]
  simp [List.range_succ]

/-- C6: the code's actual behaviour once the cancellation signal has fired
(every invocation of the wrapped operation rejects immediately with the
abort error): `withRetry` has no cancellation check, so with budget 2 it
re-invokes the cancelled operation three times, schedules the 300 ms and
600 ms backoff sleeps, and surfaces the abort error only after the budget
is exhausted — contradicting the requirement that no retry happens after
cancellation. -/
theorem C6_cancelled_operation_is_retried :
    (withRetry (fun _ => (.error "AbortError" : Except String Nat)) 2).calls
        = 3 ∧
    (withRetry (fun _ => (.error "AbortError" : Except String Nat)) 2).delays
        = [300, 600] ∧
    (withRetry (fun _ => (.error "AbortError" : Except String Nat)) 2).result
        = .error (some "AbortError") := by
  have h := withRetryGo_exhausts
    (fun _ => (.error "AbortError" : Except String Nat))
    (fun _ => "AbortError") 2 0 none 0 [] (fun j => rfl)
  have hfuel : ((2:Int) + 1).toNat = 2 + 1 := rfl
  rw [withRetry, hfuel, h]
  refine ⟨rfl, ?_, rfl⟩
  simp [List.range_succ]

/-- C8: the metadata lookup never escalates a failure: whenever its `try`
block throws — network error, non-ok status, malformed body — the error is
caught locally and the function returns the absent value (`none` models
`undefined`); in particular each of the three failure modes yields `none`.
That `getIspInformation` is total with result type `Option String` (not
`Except`) embeds "never throws". -/
theorem C8_metadata_isolated :
    (∀ (resp : Option MetaResponse) (f : MetaFailure),
      ispLookup resp = .error f → getIspInformation resp = none) ∧
    ispLookup none = .error .networkError ∧
    (∀ res : MetaResponse, res.ok = false →
      ispLookup (some res) = .error (.badStatus res.status) ∧
        getIspInformation (some res) = none) ∧
    (∀ res : MetaResponse, res.ok = true → res.body = none →
      ispLookup (some res) = .error .malformedBody ∧
        getIspInformation (some res) = none) := by
  have hcatch : ∀ (resp : Option MetaResponse) (f : MetaFailure),
      ispLookup resp = .error f → getIspInformation resp = none := by
    intro resp f h
    unfold getIspInformation
    rw [h]
  refine ⟨hcatch, rfl, ?_, ?_⟩
  · intro res hok
    obtain ⟨rok, rstatus, rbody⟩ := res
    simp only at hok
    subst hok
    have h : ispLookup (some ⟨false, rstatus, rbody⟩) =
        .error (.badStatus rstatus) := rfl
    exact ⟨h, hcatch _ _ h⟩
  · intro res hok hbody
    obtain ⟨rok, rstatus, rbody⟩ := res
    simp only at hok hbody
    subst hok
    subst hbody
    have h : ispLookup (some ⟨true, rstatus, none⟩) =
        .error .malformedBody := rfl
    exact ⟨h, hcatch _ _ h⟩

/-- Witness for C8: a 500 status response and a malformed-body response
both degrade to the absent value. -/
theorem C8_metadata_isolated_witness :
    getIspInformation (some ⟨false, 500, none⟩) = none ∧
    getIspInformation (some ⟨true, 200, none⟩) = none ∧
    getIspInformation none = none := by
  refine ⟨(C8_metadata_isolated.2.2.1 ⟨false, 500, none⟩ rfl).2,
    (C8_metadata_isolated.2.2.2 ⟨true, 200, none⟩ rfl rfl).2,
    C8_metadata_isolated.1 none .networkError rfl⟩

/-- C3: a successful latency measurement makes exactly 8 attempts and
returns their durations as `samples` in attempt order; `average` is the
arithmetic mean, `min`/`max` the extrema, `jitter` the mean absolute
deviation from the average; consequently `min ≤ average ≤ max` and
`jitter ≥ 0`. -/
theorem C3_latency_metrics (att : Nat → Except ε ℚ) (m : LatencyMetrics)
    (h : measureLatency att = .ok m) :
    m.samples.length = 8 ∧
    (∀ j, j < 8 → m.samples.get? j = (att j).toOption) ∧
    m.average = sumList m.samples / 8 ∧
    m.min = listMin m.samples ∧
    m.max = listMax m.samples ∧
    m.jitter = jitterSum m.samples m.average / 8 ∧
    m.min ≤ m.average ∧ m.average ≤ m.max ∧ 0 ≤ m.jitter := by
  unfold measureLatency at h
  cases hcol : collectSamples att 0 LATENCY_ATTEMPTS with
  | error err =>
    rw [hcol] at h
    simp [Except.map] at h
  | ok samples =>
    rw [hcol] at h
    have hm : m = mkLatencyMetrics samples := by
      simpa [Except.map] using h.symm
    subst hm
    obtain ⟨hlen, hget⟩ := collectSamples_ok att LATENCY_ATTEMPTS 0
      samples hcol
    have hlen8 : samples.length = 8 := hlen
    have hne : samples ≠ [] := by
      intro hcontra
      rw [hcontra] at hlen8
      simp at hlen8
    have hcast : ((samples.length : ℚ)) = 8 := by
      rw [hlen8]; norm_num
    have hsamples : (mkLatencyMetrics samples).samples = samples := rfl
    have havg : (mkLatencyMetrics samples).average =
        sumList samples / (samples.length : ℚ) := rfl
    have hjit : (mkLatencyMetrics samples).jitter =
        jitterSum samples ((mkLatencyMetrics samples).average) /
          (samples.length : ℚ) := rfl
    refine ⟨hlen8, ?_, ?_, rfl, rfl, ?_, ?_, ?_, ?_⟩
    · intro j hj
      have := hget j (by simpa [LATENCY_ATTEMPTS] using hj)
      simpa using this
    · rw [hsamples, havg, hcast]
    · rw [hsamples, hjit, hcast]
    · rw [havg]
      exact listMin_le_average samples hne
    · rw [havg]
      exact average_le_listMax samples hne
    · have hj : (mkLatencyMetrics samples).jitter =
          jitterSum samples ((mkLatencyMetrics samples).average) /
            (samples.length : ℚ) := rfl
      rw [hj]
      apply div_nonneg (jitterSum_nonneg _ _)
      rw [hcast]
      norm_num

/-- Witness for C3: eight identical 20 ms attempts produce samples of
length 8, average 20 between min and max, and jitter 0. -/
theorem C3_latency_metrics_witness :
    (mkLatencyMetrics (List.replicate 8 20)).samples.length = 8 ∧
    (mkLatencyMetrics (List.replicate 8 20)).min ≤
      (mkLatencyMetrics (List.replicate 8 20)).average ∧
    (mkLatencyMetrics (List.replicate 8 20)).average ≤
      (mkLatencyMetrics (List.replicate 8 20)).max ∧
    0 ≤ (mkLatencyMetrics (List.replicate 8 20)).jitter := by
  have h : measureLatency (fun _ => (.ok 20 : Except Unit ℚ)) =
      .ok (mkLatencyMetrics (List.replicate 8 20)) := rfl
  obtain ⟨h1, _, _, _, _, _, h7, h8, h9⟩ :=
    C3_latency_metrics (fun _ => (.ok 20 : Except Unit ℚ))
      (mkLatencyMetrics (List.replicate 8 20)) h
  exact ⟨h1, h7, h8, h9⟩

/-- C4: every download or upload sample satisfies the exact identity
`mbps = sizeBytes * 8 / durationSeconds / 1_000_000`; the stage averages
are the unweighted arithmetic means of the samples' `mbps` (0 for an empty
list); and a returned run has `downloadMbps` (resp. `uploadMbps`) equal to
the average over the recorded download (resp. upload) samples. -/
theorem C4_throughput_identity
    (latAtt dlMs ulMs : Nat → Nat → Except ε ℚ) (enableUpload : Bool)
    (retries : Int) (tstamp : ℚ) :
    (∀ (s : ℚ) (p : Except ε ℚ) (smp : ThroughputSample),
      measureDownloadForSize s p = .ok smp →
        smp.mbps = smp.sizeBytes * 8 / smp.durationSeconds / 1000000 ∧
          smp.sizeBytes = s) ∧
    (∀ (s : ℚ) (p : Except ε ℚ) (smp : ThroughputSample),
      measureUploadForSize s p = .ok smp →
        smp.mbps = smp.sizeBytes * 8 / smp.durationSeconds / 1000000 ∧
          smp.sizeBytes = s) ∧
    averageThroughput [] = 0 ∧
    (∀ samples : List ThroughputSample, samples ≠ [] →
      averageThroughput samples =
        mbpsSum samples / (samples.length : ℚ)) ∧
    (∀ res : SpeedTestResult,
      (runSpeedTest latAtt dlMs ulMs enableUpload retries
          tstamp).result = .ok res →
        res.downloadMbps = some (averageThroughput
          (runSpeedTest latAtt dlMs ulMs enableUpload retries
            tstamp).downloadSamples) ∧
        res.uploadMbps = Option.map averageThroughput
          (runSpeedTest latAtt dlMs ulMs enableUpload retries
            tstamp).uploadSamples) := by
  refine ⟨?_, ?_, rfl, ?_, ?_⟩
  · intro s p smp h
    cases hp : p with
    | error err =>
      rw [hp] at h
      simp [measureDownloadForSize] at h
    | ok ms =>
      rw [hp] at h
      have hsmp : smp =
          { sizeBytes := s, durationSeconds := ms / 1000
            mbps := s * 8 / (ms / 1000) / 1000000 } := by
        simpa [measureDownloadForSize] using h.symm
      subst hsmp
      exact ⟨rfl, rfl⟩
  · intro s p smp h
    cases hp : p with
    | error err =>
      rw [hp] at h
      simp [measureUploadForSize] at h
    | ok ms =>
      rw [hp] at h
      have hsmp : smp =
          { sizeBytes := s, durationSeconds := ms / 1000
            mbps := s * 8 / (ms / 1000) / 1000000 } := by
        simpa [measureUploadForSize] using h.symm
      subst hsmp
      exact ⟨rfl, rfl⟩
  · intro samples hne
    unfold averageThroughput
    rw [if_neg (by simpa using hne)]
  · intro res h
    obtain ⟨h1, h2, _⟩ := runSpeedTest_result_ok latAtt dlMs ulMs
      enableUpload retries tstamp res h
    exact ⟨h1, h2⟩

/-- Witness for C4: a 1 MiB download drained in 100 ms yields the sample
with `mbps = 1048576 * 8 / 0.1 / 1e6`, the empty list averages to 0, and a
concrete successful run returns `downloadMbps` equal to the average of its
recorded download samples and `uploadMbps` equal to the average of its
recorded upload samples. -/
theorem C4_throughput_identity_witness :
    ((⟨1048576, 100 / 1000, 1048576 * 8 / (100 / 1000) / 1000000⟩ :
        ThroughputSample).mbps =
      (⟨1048576, 100 / 1000, 1048576 * 8 / (100 / 1000) / 1000000⟩ :
        ThroughputSample).sizeBytes * 8 /
        (⟨1048576, 100 / 1000, 1048576 * 8 / (100 / 1000) / 1000000⟩ :
          ThroughputSample).durationSeconds / 1000000) ∧
    averageThroughput [] = 0 ∧
    (runSpeedTest (ε := Unit) (fun _ _ => .ok 20) (fun _ _ => .ok 100)
        (fun _ _ => .ok 100) true 2 0).result =
      .ok { downloadMbps := some (4194304 / 9375)
            uploadMbps := some (393216 / 3125)
            latency := some (mkLatencyMetrics (List.replicate 8 20))
            timestamp := 0 } ∧
    ({ downloadMbps := some (4194304 / 9375)
       uploadMbps := some (393216 / 3125)
       latency := some (mkLatencyMetrics (List.replicate 8 20))
       timestamp := 0 } : SpeedTestResult).downloadMbps =
      some (averageThroughput
        (runSpeedTest (ε := Unit) (fun _ _ => .ok 20) (fun _ _ => .ok 100)
          (fun _ _ => .ok 100) true 2 0).downloadSamples) := by
  have hc := C4_throughput_identity (ε := Unit) (fun _ _ => .ok 20)
    (fun _ _ => .ok 100) (fun _ _ => .ok 100) true 2 0
  have hres : (runSpeedTest (ε := Unit) (fun _ _ => .ok 20)
      (fun _ _ => .ok 100) (fun _ _ => .ok 100) true 2 0).result =
      .ok { downloadMbps := some (4194304 / 9375)
            uploadMbps := some (393216 / 3125)
            latency := some (mkLatencyMetrics (List.replicate 8 20))
            timestamp := 0 } := by
    simp only [runSpeedTest, withRetry, withRetryGo, measureLatency,
      collectSamples, stageRun, measureDownloadForSize, measureUploadForSize,
      averageThroughput, mbpsSum, sumList, jitterSum, DOWNLOAD_SIZES,
      UPLOAD_SIZES, LATENCY_ATTEMPTS, stageEvent, clampProgress,
      List.getD, List.foldl, List.length, Int.toNat, Except.map]
    norm_num [mkLatencyMetrics, List.replicate, sumList, jitterSum,
      listMin, listMax, List.foldl]
  refine ⟨?_, hc.2.2.1, hres, ?_⟩
  · exact (hc.1 1048576 (.ok 100)
      ⟨1048576, 100 / 1000, 1048576 * 8 / (100 / 1000) / 1000000⟩ rfl).1
  · exact ((hc.2.2.2.2) _ hres).1

/-- C2 counterexample: in an all-success run the third progress value is
`20 + (1/3)*55 = 115/3`, which is handed to the callback unrounded — it is
not an integer, refuting the claim that every reported progress value is an
integer. -/
theorem C2_counterexample :
    (((runSpeedTest (ε := Unit) (fun _ _ => .ok 20) (fun _ _ => .ok 100)
        (fun _ _ => .ok 100) true 2 0).events.map
          ProgressEvent.value).get? 2 = some (115 / 3)) ∧
    ¬ ∃ z : ℤ, (115 / 3 : ℚ) = (z : ℚ) := by
  constructor
  · simp only [runSpeedTest, withRetry, withRetryGo, measureLatency,
      collectSamples, stageRun, measureDownloadForSize, measureUploadForSize,
      averageThroughput, mbpsSum, sumList, jitterSum, DOWNLOAD_SIZES,
      UPLOAD_SIZES, LATENCY_ATTEMPTS, stageEvent, clampProgress,
      List.getD, List.foldl, List.length, Int.toNat, Except.map]
    norm_num [mkLatencyMetrics, List.map, List.get?]
  · rintro ⟨z, hz⟩
    have h3 : (115 : ℚ) = (z : ℚ) * 3 := by
      field_simp at hz
      linarith
    have h4 : (115 : ℤ) = z * 3 := by exact_mod_cast h3
    omega

/-- C2 amended: every progress value handed to `onProgress` is a rational
(not necessarily an integer) clamped to `[0, 100]`, the values are
monotonically non-decreasing over the run, and they follow the fixed
breakpoints — 2 entering latency, 20 at latency complete,
`clamp(20 + (completed/3)*55)` per download size,
`clamp(80 + (completed/2)*18)` per upload size, 100 at completion. -/
theorem C2_progress_contract (latAtt dlMs ulMs : Nat → Nat → Except ε ℚ)
    (enableUpload : Bool) (retries : Int) (tstamp : ℚ) :
    (∀ e ∈ (runSpeedTest latAtt dlMs ulMs enableUpload retries
        tstamp).events, 0 ≤ e.value ∧ e.value ≤ 100) ∧
    (runSpeedTest latAtt dlMs ulMs enableUpload retries
      tstamp).events.Pairwise (fun e₁ e₂ => e₁.value ≤ e₂.value) ∧
    (∀ e ∈ (runSpeedTest latAtt dlMs ulMs enableUpload retries
        tstamp).events,
      (e.phase = .latency → e.value = 2 ∨ e.value = 20) ∧
      (e.phase = .download → ∃ j, j < 3 ∧
        e.value = clampProgress (20 + (((j : ℚ) + 1) / 3) * 55)) ∧
      (e.phase = .upload → ∃ j, j < 2 ∧
        e.value = clampProgress (80 + (((j : ℚ) + 1) / 2) * 18)) ∧
      (e.phase = .completed → e.value = 100)) := by
  refine ⟨?_, runSpeedTest_events_pairwise latAtt dlMs ulMs enableUpload
    retries tstamp, ?_⟩
  · intro e he
    rcases runSpeedTest_events_mem_cases latAtt dlMs ulMs enableUpload
        retries tstamp e he with
      rfl | rfl | ⟨j, hj, rfl⟩ | ⟨_, j, hj, rfl⟩ | rfl
    · exact ⟨clampProgress_nonneg 2, clampProgress_le_100 2⟩
    · exact ⟨clampProgress_nonneg 20, clampProgress_le_100 20⟩
    · exact ⟨clampProgress_nonneg _, clampProgress_le_100 _⟩
    · exact ⟨clampProgress_nonneg _, clampProgress_le_100 _⟩
    · exact ⟨clampProgress_nonneg 100, clampProgress_le_100 100⟩
  · intro e he
    rcases runSpeedTest_events_mem_cases latAtt dlMs ulMs enableUpload
        retries tstamp e he with
      rfl | rfl | ⟨j, hj, rfl⟩ | ⟨_, j, hj, rfl⟩ | rfl
    · refine ⟨fun _ => Or.inl clampProgress_two, ?_, ?_, ?_⟩ <;>
        { intro hph; simp [stageEvent] at hph }
    · refine ⟨fun _ => Or.inr clampProgress_twenty, ?_, ?_, ?_⟩ <;>
        { intro hph; simp [stageEvent] at hph }
    · refine ⟨?_, fun _ => ⟨j, ?_, ?_⟩, ?_, ?_⟩
      · intro hph; simp [stageEvent] at hph
      · simpa [DOWNLOAD_SIZES] using hj
      · show clampProgress (20 + (((j : ℚ) + 1) /
            (DOWNLOAD_SIZES.length : ℚ)) * 55) =
          clampProgress (20 + (((j : ℚ) + 1) / 3) * 55)
        norm_num [DOWNLOAD_SIZES]
      · intro hph; simp [stageEvent] at hph
      · intro hph; simp [stageEvent] at hph
    · refine ⟨?_, ?_, fun _ => ⟨j, ?_, ?_⟩, ?_⟩
      · intro hph; simp [stageEvent] at hph
      · intro hph; simp [stageEvent] at hph
      · simpa [UPLOAD_SIZES] using hj
      · show clampProgress (80 + (((j : ℚ) + 1) /
            (UPLOAD_SIZES.length : ℚ)) * 18) =
          clampProgress (80 + (((j : ℚ) + 1) / 2) * 18)
        norm_num [UPLOAD_SIZES]
      · intro hph; simp [stageEvent] at hph
    · refine ⟨?_, ?_, ?_, fun _ => clampProgress_hundred⟩ <;>
        { intro hph; simp [stageEvent] at hph }

/-- The event list of the all-success run used as a witness. -/
theorem runSpeedTest_allOk_events :
    (runSpeedTest (ε := Unit) (fun _ _ => .ok 20) (fun _ _ => .ok 100)
        (fun _ _ => .ok 100) true 2 0).events =
      [⟨2, .latency⟩, ⟨20, .latency⟩, ⟨115 / 3, .download⟩,
        ⟨170 / 3, .download⟩, ⟨75, .download⟩, ⟨89, .upload⟩,
        ⟨98, .upload⟩, ⟨100, .completed⟩] := by
  simp only [runSpeedTest, withRetry, withRetryGo, measureLatency,
    collectSamples, stageRun, measureDownloadForSize, measureUploadForSize,
    averageThroughput, mbpsSum, sumList, jitterSum, DOWNLOAD_SIZES,
    UPLOAD_SIZES, LATENCY_ATTEMPTS, stageEvent, clampProgress,
    List.getD, List.foldl, List.length, Int.toNat, Except.map]
  norm_num [mkLatencyMetrics]

/-- Witness for C2 amended, at the all-success run: the first event is in
the list, its value lies in `[0, 100]`, and being a latency event its value
is 2 or 20. -/
theorem C2_progress_contract_witness :
    (⟨2, .latency⟩ : ProgressEvent) ∈
      (runSpeedTest (ε := Unit) (fun _ _ => .ok 20) (fun _ _ => .ok 100)
        (fun _ _ => .ok 100) true 2 0).events ∧
    (0 ≤ (⟨2, .latency⟩ : ProgressEvent).value ∧
      (⟨2, .latency⟩ : ProgressEvent).value ≤ 100) ∧
    ((⟨2, .latency⟩ : ProgressEvent).phase = .latency →
      (⟨2, .latency⟩ : ProgressEvent).value = 2 ∨
        (⟨2, .latency⟩ : ProgressEvent).value = 20) := by
  have hmem : (⟨2, .latency⟩ : ProgressEvent) ∈
      (runSpeedTest (ε := Unit) (fun _ _ => .ok 20) (fun _ _ => .ok 100)
        (fun _ _ => .ok 100) true 2 0).events := by
    rw [runSpeedTest_allOk_events]
    exact List.mem_cons_self _ _
  have hc := C2_progress_contract (ε := Unit) (fun _ _ => .ok 20)
    (fun _ _ => .ok 100) (fun _ _ => .ok 100) true 2 0
  exact ⟨hmem, hc.1 _ hmem, (hc.2.2 _ hmem).1⟩

/-- C5: with upload disabled, the upload stage is entirely skipped — the
run's outcome does not depend on the upload environment at all, no upload
samples are recorded, no progress event carries the upload phase, and a
returned result has `uploadMbps` exactly `none` (not 0, not an average of
an empty list). -/
theorem C5_upload_disabled (latAtt dlMs ulMs : Nat → Nat → Except ε ℚ)
    (retries : Int) (tstamp : ℚ) :
    (runSpeedTest latAtt dlMs ulMs false retries tstamp).uploadSamples =
      none ∧
    (∀ e ∈ (runSpeedTest latAtt dlMs ulMs false retries tstamp).events,
      e.phase ≠ .upload) ∧
    (∀ res : SpeedTestResult,
      (runSpeedTest latAtt dlMs ulMs false retries tstamp).result =
        .ok res → res.uploadMbps = none) ∧
    (∀ ulMs' : Nat → Nat → Except ε ℚ,
      runSpeedTest latAtt dlMs ulMs false retries tstamp =
        runSpeedTest latAtt dlMs ulMs' false retries tstamp) := by
  refine ⟨runSpeedTest_noUpload_uploadSamples latAtt dlMs ulMs retries
    tstamp, ?_, ?_, ?_⟩
  · intro e he
    rcases runSpeedTest_events_mem_cases latAtt dlMs ulMs false retries
        tstamp e he with
      rfl | rfl | ⟨j, hj, rfl⟩ | ⟨heu, _⟩ | rfl
    · simp
    · simp
    · simp [stageEvent]
    · exact absurd heu (by decide)
    · simp
  · intro res h
    obtain ⟨_, h2, _⟩ := runSpeedTest_result_ok latAtt dlMs ulMs false
      retries tstamp res h
    rw [h2, runSpeedTest_noUpload_uploadSamples latAtt dlMs ulMs retries
      tstamp]
    rfl
  · intro ulMs'
    exact runSpeedTest_noUpload_independent latAtt dlMs ulMs ulMs' retries
      tstamp

/-- The result of the all-success run with upload disabled. -/
theorem runSpeedTest_noUpload_result :
    (runSpeedTest (ε := Unit) (fun _ _ => .ok 20) (fun _ _ => .ok 100)
        (fun _ _ => .ok 100) false 2 0).result =
      .ok { downloadMbps := some (4194304 / 9375)
            uploadMbps := none
            latency := some (mkLatencyMetrics (List.replicate 8 20))
            timestamp := 0 } := by
  simp only [runSpeedTest, withRetry, withRetryGo, measureLatency,
    collectSamples, stageRun, measureDownloadForSize, measureUploadForSize,
    averageThroughput, mbpsSum, sumList, jitterSum, DOWNLOAD_SIZES,
    UPLOAD_SIZES, LATENCY_ATTEMPTS, stageEvent, clampProgress,
    List.getD, List.foldl, List.length, Int.toNat, Except.map]
  norm_num [mkLatencyMetrics, List.replicate, sumList, jitterSum,
    listMin, listMax, List.foldl]

/-- Witness for C5 at a concrete disabled-upload run: no upload samples,
the returned `uploadMbps` is exactly `none`, and the run is unchanged under
a different upload environment. -/
theorem C5_upload_disabled_witness :
    (runSpeedTest (ε := Unit) (fun _ _ => .ok 20) (fun _ _ => .ok 100)
        (fun _ _ => .ok 100) false 2 0).uploadSamples = none ∧
    ({ downloadMbps := some (4194304 / 9375)
       uploadMbps := none
       latency := some (mkLatencyMetrics (List.replicate 8 20))
       timestamp := 0 } : SpeedTestResult).uploadMbps = none ∧
    runSpeedTest (ε := Unit) (fun _ _ => .ok 20) (fun _ _ => .ok 100)
        (fun _ _ => .ok 100) false 2 0 =
      runSpeedTest (ε := Unit) (fun _ _ => .ok 20) (fun _ _ => .ok 100)
        (fun _ _ => .error ()) false 2 0 := by
  have hc := C5_upload_disabled (ε := Unit) (fun _ _ => .ok 20)
    (fun _ _ => .ok 100) (fun _ _ => .ok 100) 2 0
  exact ⟨hc.1, hc.2.2.1 _ runSpeedTest_noUpload_result,
    hc.2.2.2 (fun _ _ => .error ())⟩

/-- C10: the `onProgress` callback is never invoked with phase `idle` or
`error` — every emitted phase is `latency`, `download`, `upload` or
`completed`, even though the `SpeedTestPhase` type admits `idle` and
`error`. -/
theorem C10_no_idle_error_phases (latAtt dlMs ulMs : Nat → Nat → Except ε ℚ)
    (enableUpload : Bool) (retries : Int) (tstamp : ℚ) :
    ∀ e ∈ (runSpeedTest latAtt dlMs ulMs enableUpload retries
        tstamp).events,
      e.phase ≠ .idle ∧ e.phase ≠ .error ∧
      (e.phase = .latency ∨ e.phase = .download ∨ e.phase = .upload ∨
        e.phase = .completed) := by
  intro e he
  rcases runSpeedTest_events_mem_cases latAtt dlMs ulMs enableUpload
      retries tstamp e he with
    rfl | rfl | ⟨j, hj, rfl⟩ | ⟨_, j, hj, rfl⟩ | rfl
  · exact ⟨by simp, by simp, Or.inl rfl⟩
  · exact ⟨by simp, by simp, Or.inl rfl⟩
  · exact ⟨by simp [stageEvent], by simp [stageEvent], Or.inr (Or.inl rfl)⟩
  · exact ⟨by simp [stageEvent], by simp [stageEvent],
      Or.inr (Or.inr (Or.inl rfl))⟩
  · exact ⟨by simp, by simp, Or.inr (Or.inr (Or.inr rfl))⟩

/-- Witness for C10 at the all-success run and its first event. -/
theorem C10_no_idle_error_phases_witness :
    (⟨2, .latency⟩ : ProgressEvent) ∈
      (runSpeedTest (ε := Unit) (fun _ _ => .ok 20) (fun _ _ => .ok 100)
        (fun _ _ => .ok 100) true 2 0).events ∧
    (⟨2, .latency⟩ : ProgressEvent).phase ≠ .idle ∧
    (⟨2, .latency⟩ : ProgressEvent).phase ≠ .error := by
  have hmem : (⟨2, .latency⟩ : ProgressEvent) ∈
      (runSpeedTest (ε := Unit) (fun _ _ => .ok 20) (fun _ _ => .ok 100)
        (fun _ _ => .ok 100) true 2 0).events := by
    rw [runSpeedTest_allOk_events]
    exact List.mem_cons_self _ _
  have h := C10_no_idle_error_phases (ε := Unit) (fun _ _ => .ok 20)
    (fun _ _ => .ok 100) (fun _ _ => .ok 100) true 2 0 _ hmem
  exact ⟨hmem, h.1, h.2.1⟩

end SpeedTest
